import Mathlib

/-!
Verification model of `dl.py` (DreamFx-Web/dfreshcut).

The program scans HTML/CSS files for absolute http(s) asset URLs, downloads
each asset once into `assets/` (fonts into `assets/fonts/`), and rewrites the
in-file references to local paths.  Everything below is a shallow embedding of
that script: file contents are `List Char`, the filesystem is an explicit
record, the network is a function from URL to response, and regular-expression
scanning is implemented as an executable matcher specialised to the script's
four patterns (Python `re.findall` left-to-right scanning with greedy
backtracking).

Modelling decisions, recorded once here:
* Python `set(matches)` iterates in an unspecified order; we model it as
  first-occurrence deduplication of the `findall` list (`dedupKeepFirst`).
* The script runs on a POSIX host: `os.path.join` uses `/`, so the
  `.replace('\x5c', '/')` calls are modelled but are the identity here.
* Only ASCII case folding is modelled for `re.IGNORECASE` / `str.lower`;
  all pattern literals are ASCII.
* `os.walk(project_root)` also descends into `assets/` and `assets/fonts/`,
  so downloaded assets whose sanitized names end in `.html`/`.css` are
  themselves processed as documents.  `os.walk` lists each directory once on
  entry (`scandir`), so files created in a directory after it was listed are
  not visited in the same run.  We model one realizable traversal order:
  the source documents (the project root) first, then the snapshot of
  `assets/`, then the snapshot of `assets/fonts/`, each snapshot taken when
  the phase starts; within a directory, list order of the state.  Scandir
  order is in reality unspecified.
-/

set_option maxHeartbeats 1000000

namespace Dl

/-- ASCII lowercase, as Python `str.lower` / `re.IGNORECASE` act on ASCII. -/
def lc (c : Char) : Char := c.toLower

def mapLower (s : List Char) : List Char := s.map lc

/-- The single-quote character (written via its code point). -/
def sq : Char := Char.ofNat 39

/-- The backslash character. -/
def bs : Char := Char.ofNat 92

/-- Python `str.strip()` whitespace set. -/
def isPyWs (c : Char) : Bool :=
  c == ' ' || c == '\t' || c == '\n' || c == '\r' || c == Char.ofNat 11 || c == Char.ofNat 12

/-- Python `s.strip()`. -/
def stripBoth (s : List Char) : List Char :=
  ((s.dropWhile isPyWs).reverse.dropWhile isPyWs).reverse

/-- Python `s.split(' ')[0]` (everything before the first space). -/
def firstSpaceTok (s : List Char) : List Char :=
  s.takeWhile (fun c => !(c == ' '))

/-- Python `s.replace("%20", "")`: delete the occurrences found in one
left-to-right non-overlapping scan. -/
def replace20 : List Char → List Char
  | [] => []
  | [c] => [c]
  | [c1, c2] => [c1, c2]
  | c1 :: c2 :: c3 :: rest =>
    if c1 = '%' ∧ c2 = '2' ∧ c3 = '0' then replace20 rest
    else c1 :: replace20 (c2 :: c3 :: rest)

/-- The character class `[A-Za-z0-9._-]` of the `re.sub` in `download_file`. -/
def isAllowedFileChar (c : Char) : Bool :=
  c.isAlpha || c.isDigit || c == '.' || c == '_' || c == '-'

/-- `re.sub(r'[^A-Za-z0-9._-]', '', s)`. -/
def stripSpecial (s : List Char) : List Char := s.filter isAllowedFileChar

/-- Python `str.replace(pat, rep)`: left-to-right, non-overlapping.  The
fuel (initially the length of the string) only serves structural recursion:
each step consumes at least one character, so it is never exhausted.  The
script always calls this with a non-empty pattern (a URL). -/
def replaceAllAux (pat rep : List Char) : Nat → List Char → List Char
  | _, [] => []
  | 0, s => s
  | fuel + 1, c :: cs =>
    if pat ≠ [] ∧ List.isPrefixOf pat (c :: cs) = true then
      rep ++ replaceAllAux pat rep fuel (List.drop (pat.length - 1) cs)
    else
      c :: replaceAllAux pat rep fuel cs

def replaceAll (pat rep s : List Char) : List Char :=
  replaceAllAux pat rep s.length s

/-- `local_path.replace('\x5c', '/')` — identity on POSIX paths, kept for
faithfulness. -/
def normSlash (s : List Char) : List Char :=
  s.map (fun c => if c == bs then '/' else c)

/-! ### `urllib.parse.urlparse` (the `.path` component) and `os.path` helpers -/

/-- Characters allowed in a URL scheme (`urllib.parse.scheme_chars`). -/
def isSchemeChar (c : Char) : Bool :=
  c.isAlpha || c.isDigit || c == '+' || c == '-' || c == '.'

/-- Strip `scheme:` as `urlsplit` does: the part before the first `:` must be
non-empty, start with a letter and consist of scheme characters. -/
def splitScheme (u : List Char) : List Char :=
  match u.findIdx? (fun c => c == ':') with
  | none => u
  | some i =>
    if 1 ≤ i ∧ (u.take i).all isSchemeChar = true ∧ (u.take 1).all Char.isAlpha = true then
      u.drop (i + 1)
    else u

/-- Strip `//netloc` (up to the first `/`, `?` or `#`) as `urlsplit` does. -/
def splitNetloc (u : List Char) : List Char :=
  match u with
  | '/' :: '/' :: rest => rest.dropWhile (fun c => !(c == '/' || c == '?' || c == '#'))
  | _ => u

/-- Drop the fragment: `url.split('#', 1)[0]`. -/
def dropFrag (u : List Char) : List Char := u.takeWhile (fun c => !(c == '#'))

/-- Drop the query: `url.split('?', 1)[0]`. -/
def dropQuery (u : List Char) : List Char := u.takeWhile (fun c => !(c == '?'))

/-- `os.path.basename` (POSIX): everything after the last `/`. -/
def afterLastSlash (p : List Char) : List Char :=
  (p.reverse.takeWhile (fun c => !(c == '/'))).reverse

/-- `urlparse`'s `_splitparams`: split `;params` off the last path segment. -/
def splitParams (p : List Char) : List Char :=
  if p.contains ';' then
    if p.contains '/' then
      let bn := afterLastSlash p
      if bn.contains ';' then
        p.take (p.length - bn.length) ++ bn.takeWhile (fun c => !(c == ';'))
      else p
    else p.takeWhile (fun c => !(c == ';'))
  else p

/-- `urllib.parse.urlparse(u).path`. -/
def urlPath (u : List Char) : List Char :=
  splitParams (dropQuery (dropFrag (splitNetloc (splitScheme u))))

/-- `os.path.splitext(p)[1]` (POSIX): the extension from the last dot of the
basename, empty when the basename's leading characters up to that dot are all
dots. -/
def splitextExt (p : List Char) : List Char :=
  let b := afterLastSlash p
  if b.contains '.' then
    let post := (b.reverse.takeWhile (fun c => !(c == '.'))).reverse
    let pre := b.take (b.length - post.length - 1)
    if pre.all (fun c => c == '.') then [] else '.' :: post
  else []

/-- The local filename `download_file` derives from a URL: `%20` is removed
from the whole URL, the basename of the parsed path is taken, `%20` is removed
again, and characters outside `[A-Za-z0-9._-]` are stripped. -/
def fileNameOf (url : List Char) : List Char :=
  stripSpecial (replace20 (afterLastSlash (urlPath (replace20 url))))

/-! ### Extension lists and target folders -/

def image_extensions : List (List Char) :=
  [ ".svg".data, ".jpg".data, ".jpeg".data, ".png".data, ".gif".data,
    ".webp".data, ".ico".data, ".bmp".data, ".avif".data ]

def font_extensions : List (List Char) := [ ".woff".data, ".woff2".data ]

def pdf_extensions : List (List Char) := [ ".pdf".data ]

def video_extensions : List (List Char) := [ ".webm".data ]

/-- Python `ext.strip('.')`. -/
def stripDots (e : List Char) : List Char :=
  ((e.dropWhile (fun c => c == '.')).reverse.dropWhile (fun c => c == '.')).reverse

inductive Folder where
  | assetsF
  | fontsF
deriving DecidableEq, Repr

/-- `fonts_folder if ext in font_extensions else assets_folder`, with
`ext = os.path.splitext(urlparse(url).path)[1].lower()` — identical in
`replace_urls_in_srcset` and `replace_references`. -/
def targetFolderFor (url : List Char) : Folder :=
  if font_extensions.contains (mapLower (splitextExt (urlPath url))) then
    Folder.fontsF
  else Folder.assetsF

/-! ### Filesystem, network, and event log -/

/-- Downloaded assets, by folder: association lists of (filename, bytes). -/
structure FS where
  assets : List (List Char × List Char)
  fonts : List (List Char × List Char)
deriving DecidableEq, Repr

def FS.entries (fs : FS) : Folder → List (List Char × List Char)
  | Folder.assetsF => fs.assets
  | Folder.fontsF => fs.fonts

/-- `os.path.exists(os.path.join(target_folder, file_name))`: true for the
empty name (the folder itself exists, `makedirs` ran at startup), for the
`fonts` directory inside `assets`, and for any stored file. -/
def FS.existsName (fs : FS) (f : Folder) (n : List Char) : Bool :=
  n == [] || (f == Folder.assetsF && n == "fonts".data) ||
    (fs.entries f).any (fun e => e.1 == n)

def FS.insert (fs : FS) (f : Folder) (n content : List Char) : FS :=
  match f with
  | Folder.assetsF => ⟨(n, content) :: fs.assets, fs.fonts⟩
  | Folder.fontsF => ⟨fs.assets, (n, content) :: fs.fonts⟩

/-- Outcome of `requests.get(url, stream=True)` together with the behaviour of
the body stream: `resp code chunks midFail` is a response with the given
status; when `midFail` is true a `requests` exception is raised while reading
the body after the listed chunks were already written.  `exn` is an exception
raised by `requests.get` itself. -/
inductive NetResp where
  | resp (code : Nat) (chunks : List (List Char)) (midFail : Bool)
  | exn
deriving DecidableEq, Repr

def Net : Type := List Char → NetResp

/-- Observable events: URLs actually fetched over the network, source files
written, and the number of `download_file` calls that returned `None`. -/
structure Log where
  fetches : List (List Char)
  writes : List (List Char)
  fails : Nat
deriving DecidableEq, Repr

def Log.emp : Log := ⟨[], [], 0⟩

def Log.app (a b : Log) : Log :=
  ⟨a.fetches ++ b.fetches, a.writes ++ b.writes, a.fails + b.fails⟩

/-- `"assets"` / `"assets/fonts"` relative to the project root. -/
def folderRel : Folder → List Char
  | Folder.assetsF => "assets".data
  | Folder.fontsF => "assets/fonts".data

/-- `os.path.relpath(os.path.join(target_folder, file_name), project_root)`:
for the empty name the join has a trailing separator and `relpath` yields the
folder itself. -/
def relOf (f : Folder) (n : List Char) : List Char :=
  if n = [] then folderRel f else folderRel f ++ '/' :: n

structure DlRes where
  fs : FS
  res : Option (List Char)
  log : Log
deriving DecidableEq, Repr

/-- `download_file(file_url, target_folder)` of `dl.py` (lines 41-71). -/
def download_file (net : Net) (fs : FS) (url : List Char) (folder : Folder) : DlRes :=
  let name := fileNameOf url
  if fs.existsName folder name then
    ⟨fs, some (relOf folder name), Log.emp⟩
  else
    match net url with
    | NetResp.exn => ⟨fs, none, ⟨[url], [], 1⟩⟩
    | NetResp.resp code chunks midFail =>
      if code = 200 then
        if midFail then
          ⟨fs.insert folder name chunks.flatten, none, ⟨[url], [], 1⟩⟩
        else
          ⟨fs.insert folder name chunks.flatten, some (relOf folder name), ⟨[url], [], 0⟩⟩
      else ⟨fs, none, ⟨[url], [], 1⟩⟩

/-! ### The regex patterns of `dl.py` as an executable matcher

The four URL patterns all have the shape
`https?://[^EXCL]+\.(?:alt1|...|altk)` under `re.IGNORECASE`, the CSS one
additionally wrapped in `url\(["']?(...)["']?\)`.  `re.findall` scans
left-to-right, attempting a match at each position and continuing after each
match; `[^EXCL]+` is greedy, so the engine takes the longest body for which
the rest of the pattern matches, trying extension alternatives in order and
backtracking through them when the trailing context fails. -/

/-- Match a literal case-insensitively at the head; returns the rest. -/
def ciStrip : List Char → List Char → Option (List Char)
  | [], s => some s
  | _ :: _, [] => none
  | l :: ls, c :: cs => if lc c == lc l then ciStrip ls cs else none

/-- Trailing context after a matched extension alternative: nothing for the
HTML patterns; `["']?\)` (an optional quote, tried greedily, then `)`) for the
CSS pattern.  Returns the number of characters it consumes. -/
def extTailOk (cssT : Bool) (rest : List Char) : Option Nat :=
  if cssT then
    match rest with
    | [] => none
    | c :: rs =>
      if c == '"' || c == sq then
        match rs with
        | ')' :: _ => some 2
        | _ => none
      else if c == ')' then some 1
      else none
  else some 0

/-- Try the extension alternatives in order at `s`, backtracking to the next
alternative when the trailing context fails; the result is the length of the
matched alternative and of its trailing context. -/
def firstExtM (exts : List (List Char)) (cssT : Bool) (s : List Char) : Option (Nat × Nat) :=
  match exts with
  | [] => none
  | e :: es =>
    match ciStrip e s with
    | none => firstExtM es cssT s
    | some rest =>
      match extTailOk cssT rest with
      | some ex => some (e.length, ex)
      | none => firstExtM es cssT s

/-- Does a body of length `b` work at `s`: its characters avoid the excluded
set, position `b` holds `.`, and an extension alternative (with trailing
context) matches after the dot. -/
def splitOkAt (excl : List Char) (exts : List (List Char)) (cssT : Bool)
    (s : List Char) (b : Nat) : Option (Nat × Nat) :=
  if (s.take b).all (fun c => !(excl.contains c)) then
    match s[b]? with
    | some c => if c = '.' then firstExtM exts cssT (s.drop (b + 1)) else none
    | none => none
  else none

/-- Greedy body search: the largest body length (counting down) that works.
Returns `(body length, extension length, trailing context length)`. -/
def bestSplitGo (excl : List Char) (exts : List (List Char)) (cssT : Bool)
    (s : List Char) : Nat → Option (Nat × Nat × Nat)
  | 0 => none
  | b + 1 =>
    match splitOkAt excl exts cssT s (b + 1) with
    | some (eL, ex) => some (b + 1, eL, ex)
    | none => bestSplitGo excl exts cssT s b

/-- `https?` after the literal `http`: greedily try `s://`, else `://`;
returns the total scheme-part length (8 or 7) and the rest. -/
def schemeSplit (r1 : List Char) : Option (Nat × List Char) :=
  match ciStrip ( "s://".data ) r1 with
  | some r => some (8, r)
  | none =>
    match ciStrip ( "://".data ) r1 with
    | some r => some (7, r)
    | none => none

/-- Match `https?://[^excl]+\.(?:exts)` at the start of `s` (with the CSS
trailing context when `cssT`).  Returns the matched URL (the regex group) and
the total number of characters consumed. -/
def tryBareCore (excl : List Char) (exts : List (List Char)) (cssT : Bool)
    (s : List Char) : Option (List Char × Nat) :=
  match ciStrip ( "http".data ) s with
  | none => none
  | some r1 =>
    match schemeSplit r1 with
    | none => none
    | some (pre, r2) =>
      match bestSplitGo excl exts cssT r2 r2.length with
      | none => none
      | some (b, eL, ex) => some (s.take (pre + b + 1 + eL), pre + b + 1 + eL + ex)

/-- Match `url\(["']?(https?://[^excl]+\.(?:exts))["']?\)` at the start of
`s`; returns the group and the characters consumed by the whole match. -/
def tryCssAt (excl : List Char) (exts : List (List Char)) (s : List Char) :
    Option (List Char × Nat) :=
  match ciStrip ( "url(".data ) s with
  | none => none
  | some r0 =>
    match r0 with
    | [] => none
    | c :: rs =>
      if c == '"' || c == sq then
        match tryBareCore excl exts true rs with
        | some (g, k) => some (g, 4 + 1 + k)
        | none => none
      else
        match tryBareCore excl exts true r0 with
        | some (g, k) => some (g, 4 + k)
        | none => none

/-- A pattern of the script: excluded body characters, extension alternatives
(already `strip('.')`-ed), and whether it is the `url(...)`-wrapped CSS one. -/
structure Pat where
  excl : List Char
  exts : List (List Char)
  css : Bool
deriving DecidableEq, Repr

def htmlExcl : List Char := [ '"', sq, '>' ]

def cssExcl : List Char := [ '"', sq, ')' ]

def html_img_pattern : Pat := ⟨htmlExcl, image_extensions.map stripDots, false⟩

def html_pdf_pattern : Pat := ⟨htmlExcl, pdf_extensions.map stripDots, false⟩

def html_video_pattern : Pat := ⟨htmlExcl, video_extensions.map stripDots, false⟩

def css_asset_pattern : Pat :=
  ⟨cssExcl, (image_extensions ++ font_extensions).map stripDots, true⟩

def patTry (pt : Pat) : List Char → Option (List Char × Nat) :=
  if pt.css then tryCssAt pt.excl pt.exts else tryBareCore pt.excl pt.exts false

/-- `re.findall` driver: attempt a match at each position, emit the group and
continue after the match, else advance one character.  Every successful match
consumes at least four characters, so fuel `length + 1` is never exhausted. -/
def findAllAux (try1 : List Char → Option (List Char × Nat)) :
    Nat → List Char → List (List Char)
  | 0, _ => []
  | _ + 1, [] => []
  | fuel + 1, c :: cs =>
    match try1 (c :: cs) with
    | some (g, k) => g :: findAllAux try1 fuel ((c :: cs).drop k)
    | none => findAllAux try1 fuel cs

/-- `pattern.findall(content)` for one of the four URL patterns. -/
def findAllP (pt : Pat) (s : List Char) : List (List Char) :=
  findAllAux (patTry pt) (s.length + 1) s

/-- Match `srcset\s*=\s*"([^"]+)"` at the start of `s` (group and consumed). -/
def trySrcsetAt (s : List Char) : Option (List Char × Nat) :=
  match ciStrip ( "srcset".data ) s with
  | none => none
  | some r1 =>
    let r2 := r1.dropWhile isPyWs
    match r2 with
    | '=' :: r3 =>
      let r4 := r3.dropWhile isPyWs
      match r4 with
      | '"' :: r5 =>
        let v := r5.takeWhile (fun c => !(c == '"'))
        if v.length = 0 then none
        else
          match r5.drop v.length with
          | '"' :: _ =>
            some (v, 6 + (r1.length - r2.length) + 1 + (r3.length - r4.length) + 1 + v.length + 1)
          | _ => none
      | _ => none
    | _ => none

/-- `srcset_pattern.findall(content)`. -/
def findSrcset (s : List Char) : List (List Char) :=
  findAllAux trySrcsetAt (s.length + 1) s

/-- Python `s.split(sep)` for a single-character separator (empty parts
kept). -/
def splitOnChar (sep : Char) : List Char → List (List Char)
  | [] => [[]]
  | c :: cs =>
    match splitOnChar sep cs with
    | [] => [[c]]
    | h :: t => if c == sep then [] :: h :: t else (c :: h) :: t

/-- The candidate URLs of the srcset pass: each matched attribute value is
split on commas and each part stripped, keeping the text before the first
space. -/
def srcTokensOf (content : List Char) : List (List Char) :=
  ((findSrcset content).map
    (fun v => (splitOnChar ',' v).map (fun part => firstSpaceTok (stripBoth part)))).flatten

/-- Python `url.startswith('http')` (case-sensitive). -/
def startsWithHttp (t : List Char) : Bool := List.isPrefixOf ( "http".data ) t

/-- `set(matches)` modelled as first-occurrence deduplication (Python's set
iteration order is unspecified). -/
def dedupKeepFirstAux (seen : List (List Char)) : List (List Char) → List (List Char)
  | [] => []
  | x :: xs =>
    if seen.contains x then dedupKeepFirstAux seen xs
    else x :: dedupKeepFirstAux (x :: seen) xs

def dedupKeepFirst (l : List (List Char)) : List (List Char) :=
  dedupKeepFirstAux [] l

/-! ### The script's pipeline -/

/-- State threaded through `replace_urls_in_srcset` and per-file processing. -/
structure SPass where
  fs : FS
  content : List Char
  log : Log
deriving DecidableEq, Repr

/-- One srcset candidate: download and substitute when it starts with `http`
and the download succeeds (`dl.py` lines 78-85). -/
def srcsetStep (net : Net) (st : SPass) (tok : List Char) : SPass :=
  if startsWithHttp tok then
    let r := download_file net st.fs tok (targetFolderFor tok)
    match r.res with
    | some p => ⟨r.fs, replaceAll tok (normSlash p) st.content, st.log.app r.log⟩
    | none => ⟨r.fs, st.content, st.log.app r.log⟩
  else st

/-- `replace_urls_in_srcset(content)` (lines 73-86); the matches are computed
once on the incoming content. -/
def replace_urls_in_srcset (net : Net) (fs : FS) (content : List Char) : SPass :=
  (srcTokensOf content).foldl (srcsetStep net) ⟨fs, content, Log.emp⟩

/-- State of the type-specific loop of `replace_references`. -/
structure RPass where
  fs : FS
  content : List Char
  modified : Bool
  log : Log
deriving DecidableEq, Repr

/-- One URL of the type-specific loop: download and, on success, replace with
`"/" + local_path.replace('\x5c', '/')` and set `modified` (lines 97-103). -/
def refStep (net : Net) (st : RPass) (url : List Char) : RPass :=
  let r := download_file net st.fs url (targetFolderFor url)
  match r.res with
  | some p => ⟨r.fs, replaceAll url ('/' :: normSlash p) st.content, true, st.log.app r.log⟩
  | none => ⟨r.fs, st.content, st.modified, st.log.app r.log⟩

/-- `replace_references` on in-memory content (lines 88-103): the srcset pass
runs first, then the deduplicated pattern matches of the resulting content. -/
def replace_references (net : Net) (fs : FS) (pt : Pat) (content : List Char) : RPass :=
  let s := replace_urls_in_srcset net fs content
  let urls := dedupKeepFirst (findAllP pt s.content)
  let r := urls.foldl (refStep net) ⟨s.fs, s.content, false, Log.emp⟩
  ⟨r.fs, r.content, r.modified, s.log.app r.log⟩

/-- `replace_references` including its file write (lines 105-108): the file is
written back only when `modified` was set in the type-specific loop; otherwise
the on-disk content stays as read. -/
def replace_references_file (net : Net) (fs : FS) (pt : Pat)
    (path content : List Char) : SPass :=
  let r := replace_references net fs pt content
  if r.modified then ⟨r.fs, r.content, r.log.app ⟨[], [path], 0⟩⟩
  else ⟨r.fs, content, r.log⟩

/-- Pattern dispatch of `process_files` (lines 115-123): `.html` files go
through the image, PDF and video patterns in that order, `.css` files through
the CSS pattern, anything else is untouched. -/
def patternsFor (path : List Char) : List Pat :=
  if ( ".html".data ).isSuffixOf (mapLower path) then
    [html_img_pattern, html_pdf_pattern, html_video_pattern]
  else if ( ".css".data ).isSuffixOf (mapLower path) then [css_asset_pattern]
  else []

/-- Process one document: each pattern's `replace_references` call re-reads
the current on-disk content and conditionally writes it back. -/
def processDoc (net : Net) (fs : FS) (path content : List Char) : SPass :=
  (patternsFor path).foldl
    (fun st pt =>
      let r := replace_references_file net st.fs pt path st.content
      ⟨r.fs, r.content, st.log.app r.log⟩)
    ⟨fs, content, Log.emp⟩

/-- The file tree: downloaded assets plus the walked source documents. -/
structure St where
  fs : FS
  docs : List (List Char × List Char)
deriving DecidableEq, Repr

/-- The document loop of `process_files`. -/
def processDocs (net : Net) (fs : FS) :
    List (List Char × List Char) → FS × List (List Char × List Char) × Log
  | [] => (fs, [], Log.emp)
  | d :: ds =>
    let p := processDoc net fs d.1 d.2
    let r := processDocs net p.fs ds
    (r.1, (d.1, p.content) :: r.2.1, p.log.app r.2.2)

/-- Overwrite the (unique, on a real filesystem) entry of this name; on a
model state with duplicate names, the first. -/
def updateEntry : List (List Char × List Char) → List Char → List Char →
    List (List Char × List Char)
  | [], _, _ => []
  | e :: es, n, c => if e.1 == n then (n, c) :: es else e :: updateEntry es n c

/-- Writing a document that lives in an asset folder (line 106 with a
`file_path` under `assets/`). -/
def FS.setFile (fs : FS) (f : Folder) (n c : List Char) : FS :=
  match f with
  | Folder.assetsF => ⟨updateEntry fs.assets n c, fs.fonts⟩
  | Folder.fontsF => ⟨fs.assets, updateEntry fs.fonts n c⟩

/-- The project-root-relative path of a walked asset file. -/
def folderPath (f : Folder) (n : List Char) : List Char :=
  folderRel f ++ '/' :: n

/-- Walk one asset directory's snapshot: each file is dispatched by its name
(equivalently its path: the suffixes contain no `/`) and, when `.html` or
`.css`, processed like any document, its new content written back to the
folder. -/
def processAssetFiles (net : Net) (f : Folder) :
    FS → List (List Char × List Char) → FS × Log
  | fs, [] => (fs, Log.emp)
  | fs, e :: es =>
    let p := processDoc net fs (folderPath f e.1) e.2
    let fs1 := p.fs.setFile f e.1 p.content
    let r := processAssetFiles net f fs1 es
    (r.1, p.log.app r.2)

/-- `process_files()` (lines 110-123): walk the source documents, then the
`assets/` snapshot, then the `assets/fonts/` snapshot. -/
def process_files (net : Net) (s : St) : St × Log :=
  let r := processDocs net s.fs s.docs
  let a := processAssetFiles net Folder.assetsF r.1 (r.1.entries Folder.assetsF)
  let ff := processAssetFiles net Folder.fontsF a.1 (a.1.entries Folder.fontsF)
  (⟨ff.1, r.2.1⟩, (r.2.2.app a.2).app ff.2)

/-! ### Predicates and concrete data used by the claims -/

/-- `pat` occurs as a contiguous substring of the second argument. -/
def occursIn (pat : List Char) : List Char → Bool
  | [] => pat == []
  | c :: cs => List.isPrefixOf pat (c :: cs) || occursIn pat cs

/-- The matched text begins, case-insensitively, with `http://` or
`https://`. -/
def StartsHttpCI (m : List Char) : Prop :=
  mapLower (m.take 7) = ( "http://".data ) ∨ mapLower (m.take 8) = ( "https://".data )

/-- The matched text ends, case-insensitively, in a dot followed by one of the
extension alternatives. -/
def EndsInExtCI (exts : List (List Char)) (m : List Char) : Prop :=
  ∃ e ∈ exts, ∃ p, mapLower m = p ++ '.' :: mapLower e

/-- No srcset candidate of this content starts with `http`. -/
def srcsetInert (c : List Char) : Prop :=
  ∀ t ∈ srcTokensOf c, startsWithHttp t = false

/-- A walked file with no remaining external references: whenever its name
dispatches to a pattern, its content has no srcset candidate starting with
`http` and no pattern match.  (A file dispatching to no pattern is never read,
so nothing is required of its content.) -/
def noDocRefs (p c : List Char) : Prop :=
  ∀ pt ∈ patternsFor p, srcsetInert c ∧ findAllP pt c = []

/-- No walked file of the state — source document or downloaded asset — has a
remaining external reference. -/
def noExternalRefs (s : St) : Prop :=
  (∀ d ∈ s.docs, noDocRefs d.1 d.2) ∧
  (∀ e ∈ s.fs.assets, noDocRefs (folderPath Folder.assetsF e.1) e.2) ∧
  (∀ e ∈ s.fs.fonts, noDocRefs (folderPath Folder.fontsF e.1) e.2)

/-- Filenames are unique within each asset folder (always true of a real
filesystem; the model's lists could in principle repeat a name). -/
def FS.wf (fs : FS) : Prop :=
  (fs.assets.map Prod.fst).Nodup ∧ (fs.fonts.map Prod.fst).Nodup

instance (c : List Char) : Decidable (srcsetInert c) := by
  unfold srcsetInert
  infer_instance

instance (p c : List Char) : Decidable (noDocRefs p c) := by
  unfold noDocRefs
  infer_instance

instance (s : St) : Decidable (noExternalRefs s) := by
  unfold noExternalRefs
  infer_instance

instance (fs : FS) : Decidable (FS.wf fs) := by
  unfold FS.wf
  infer_instance

/-- Modelled from the spec (§4.2/§8, C5's wording): the local filename as "the
basename of the URL's path with every literal `%20` removed and every character
outside `[A-Za-z0-9._-]` stripped".  Used only to compare against the code's
`fileNameOf`. -/
def specFileName (url : List Char) : List Char :=
  stripSpecial (replace20 (afterLastSlash (urlPath url)))

/-- A network where every GET succeeds with body `D`. -/
def netOk : Net := fun _ => NetResp.resp 200 [ "D".data ] false

/-- A network where every GET returns 200 but the body stream fails after the
chunk `AB` was written. -/
def netPart : Net := fun _ => NetResp.resp 200 [ "AB".data ] true

/-- C1 counterexample tree: one HTML document in which one matched URL occurs
verbatim inside another matched URL. -/
def cex1Doc : List Char := "\"http://a/b.png\" \"http://c/http://a/b.png\"".data

def cex1S0 : St := ⟨⟨[], []⟩, [( "i.html".data, cex1Doc )]⟩

/-- The state `process_files` leaves after the first run on `cex1S0` (proved
equal to it in the counterexample): the outer URL's occurrence was mangled by
the inner URL's global substitution and still matches the image pattern. -/
def cex1S1 : St :=
  ⟨⟨[( "b.png".data, "D".data )], []⟩,
    [( "i.html".data, "\"/assets/b.png\" \"http://c//assets/b.png\"".data )]⟩

/-- C1 witness tree: one HTML document with a single plain image reference. -/
def wit1S0 : St := ⟨⟨[], []⟩, [( "w.html".data, "p \"http://h/i.png\" q".data )]⟩

/-- C2 document: a single srcset reference and nothing else. -/
def c2doc : List Char := "<img srcset=\"http://q/p 1x\">".data

def c2S0 : St := ⟨⟨[], []⟩, [( "s.html".data, c2doc )]⟩

/-- C4 counterexample: the 404 URL contains a successfully downloaded URL. -/
def c4u2 : List Char := "http://a/b.png".data

def c4u1 : List Char := "http://c/http://a/b.png.gif".data

def c4doc : List Char := "\"http://a/b.png\" \"http://c/http://a/b.png.gif\"".data

def net4c : Net := fun u =>
  if u == c4u1 then NetResp.resp 404 [] false else NetResp.resp 200 [ "D".data ] false

/-- C4 amended scenario: two disjoint PDF references, the second failing. -/
def c4g : List Char := "http://x/g.pdf".data

def c4bad : List Char := "http://y/bad.pdf".data

def c4bdoc : List Char := "\"http://x/g.pdf\" \"http://y/bad.pdf\"".data

def c4bfinal : List Char := "\"/assets/g.pdf\" \"http://y/bad.pdf\"".data

def net4w : Net := fun u =>
  if u == c4bad then NetResp.resp 404 [] false else NetResp.resp 200 [ "D".data ] false

/-- C5 counterexample URL: deleting one `%20` creates a new `%20`. -/
def c5url : List Char := "http://x/a%%2020b.png".data

/-- Second C5 counterexample URL: the pre-parse `%20` removal turns `:/%20/`
into `://`, so the code parses a netloc and an empty path while the claim's
formula sees path `/%20/x.png`. -/
def c5url2 : List Char := "http:/%20/x.png".data

/-- C7 document: one srcset reference and one plain reference. -/
def c7s : List Char := "http://cdn/s.png".data

def c7p : List Char := "http://cdn/p.png".data

def c7doc : List Char := "<img srcset=\"http://cdn/s.png 1x\" src=\"http://cdn/p.png\">".data

def c7final : List Char := "<img srcset=\"assets/s.png 1x\" src=\"/assets/p.png\">".data

/-- C8 counterexample: a CSS url() reference whose URL contains `>`. -/
def c8doc : List Char := "url(http://a/x>y.png)".data

def c8url : List Char := "http://a/x>y.png".data

/-- C8 witness data. -/
def c8wdoc : List Char := "<img src=\"http://cdn.test/pic.jpg\">".data

def c8wurl : List Char := "http://cdn.test/pic.jpg".data

/-- C10 document: a matched URL whose path basename sanitizes to empty. -/
def c10url : List Char := "http://a/?x=.png".data

def c10doc : List Char := "<a href=\"http://a/?x=.png\">".data

def c10final : List Char := "<a href=\"/assets\">".data

/-- C6 witness data. -/
def c6u1 : List Char := "http://h/one.png".data

def c6u2 : List Char := "http://h/one.png?v=2".data

/-- C3 data: a URL, and a network where every GET yields status 404. -/
def c3url : List Char := "http://h/f.png".data

def net404 : Net := fun _ => NetResp.resp 404 [] false

/-- C6 witness data: a filesystem already holding `one.png`. -/
def c6fs : FS := ⟨[( "one.png".data, "D".data )], []⟩

/-- C7 intermediate content: after the srcset pass, before the pattern loop. -/
def c7mid : List Char := "<img srcset=\"assets/s.png 1x\" src=\"http://cdn/p.png\">".data

/-- C7 witness network. -/
def net7w : Net := fun u =>
  if u == c7s then NetResp.resp 200 [ "S".data ] false
  else NetResp.resp 200 [ "P".data ] false

/-! ## Helper lemmas -/

theorem Log.app_emp (a : Log) : a.app Log.emp = a := by
  simp [Log.app, Log.emp]

theorem Log.emp_app (a : Log) : Log.emp.app a = a := by
  simp [Log.app, Log.emp]

theorem download_file_exists (net : Net) (fs : FS) (url : List Char) (folder : Folder)
    (h : fs.existsName folder (fileNameOf url) = true) :
    download_file net fs url folder = ⟨fs, some (relOf folder (fileNameOf url)), Log.emp⟩ := by
  simp [download_file, h]

theorem download_file_fresh_ok (net : Net) (fs : FS) (url : List Char) (folder : Folder)
    (ch : List (List Char)) (h1 : fs.existsName folder (fileNameOf url) = false)
    (h2 : net url = NetResp.resp 200 ch false) :
    download_file net fs url folder =
      ⟨fs.insert folder (fileNameOf url) ch.flatten,
        some (relOf folder (fileNameOf url)), ⟨[url], [], 0⟩⟩ := by
  simp [download_file, h1, h2]

theorem download_file_fresh_midfail (net : Net) (fs : FS) (url : List Char) (folder : Folder)
    (ch : List (List Char)) (h1 : fs.existsName folder (fileNameOf url) = false)
    (h2 : net url = NetResp.resp 200 ch true) :
    download_file net fs url folder =
      ⟨fs.insert folder (fileNameOf url) ch.flatten, none, ⟨[url], [], 1⟩⟩ := by
  simp [download_file, h1, h2]

theorem download_file_fresh_bad (net : Net) (fs : FS) (url : List Char) (folder : Folder)
    (h1 : fs.existsName folder (fileNameOf url) = false)
    (h2 : net url = NetResp.exn ∨
      ∃ code ch mf, net url = NetResp.resp code ch mf ∧ code ≠ 200) :
    download_file net fs url folder = ⟨fs, none, ⟨[url], [], 1⟩⟩ := by
  rcases h2 with h2 | ⟨code, ch, mf, h2, hc⟩
  · simp [download_file, h1, h2]
  · simp [download_file, h1, h2, hc]

theorem refStep_eq_ok (net : Net) (st : RPass) (url : List Char) (fs' : FS)
    (p : List Char) (lg : Log)
    (h : download_file net st.fs url (targetFolderFor url) = ⟨fs', some p, lg⟩) :
    refStep net st url =
      ⟨fs', replaceAll url ('/' :: normSlash p) st.content, true, st.log.app lg⟩ := by
  simp [refStep, h]

theorem refStep_eq_none (net : Net) (st : RPass) (url : List Char) (fs' : FS) (lg : Log)
    (h : download_file net st.fs url (targetFolderFor url) = ⟨fs', none, lg⟩) :
    refStep net st url = ⟨fs', st.content, st.modified, st.log.app lg⟩ := by
  simp [refStep, h]

theorem srcsetStep_eq_ok (net : Net) (st : SPass) (tok : List Char) (fs' : FS)
    (p : List Char) (lg : Log) (hh : startsWithHttp tok = true)
    (h : download_file net st.fs tok (targetFolderFor tok) = ⟨fs', some p, lg⟩) :
    srcsetStep net st tok =
      ⟨fs', replaceAll tok (normSlash p) st.content, st.log.app lg⟩ := by
  simp [srcsetStep, hh, h]

theorem srcsetStep_eq_none (net : Net) (st : SPass) (tok : List Char) (fs' : FS) (lg : Log)
    (hh : startsWithHttp tok = true)
    (h : download_file net st.fs tok (targetFolderFor tok) = ⟨fs', none, lg⟩) :
    srcsetStep net st tok = ⟨fs', st.content, st.log.app lg⟩ := by
  simp [srcsetStep, hh, h]

theorem srcsetStep_not_http (net : Net) (st : SPass) (tok : List Char)
    (hh : startsWithHttp tok = false) : srcsetStep net st tok = st := by
  simp [srcsetStep, hh]

theorem download_file_writes (net : Net) (fs : FS) (url : List Char) (folder : Folder) :
    (download_file net fs url folder).log.writes = [] := by
  simp only [download_file]
  split
  · rfl
  · split
    · rfl
    · split
      · split
        · rfl
        · rfl
      · rfl

theorem srcsetStep_writes (net : Net) (st : SPass) (tok : List Char) :
    (srcsetStep net st tok).log.writes = st.log.writes := by
  simp only [srcsetStep]
  split
  · have hw := download_file_writes net st.fs tok (targetFolderFor tok)
    split
    · simp_all [Log.app]
    · simp_all [Log.app]
  · rfl

theorem foldl_srcsetStep_writes (net : Net) :
    ∀ (toks : List (List Char)) (st : SPass),
      ((toks.foldl (srcsetStep net) st).log.writes = st.log.writes)
  | [], _ => rfl
  | t :: ts, st => by
    rw [List.foldl_cons, foldl_srcsetStep_writes net ts, srcsetStep_writes]

theorem refStep_writes (net : Net) (st : RPass) (url : List Char) :
    (refStep net st url).log.writes = st.log.writes := by
  simp only [refStep]
  have hw := download_file_writes net st.fs url (targetFolderFor url)
  split
  · simp_all [Log.app]
  · simp_all [Log.app]

theorem foldl_refStep_writes (net : Net) :
    ∀ (urls : List (List Char)) (st : RPass),
      ((urls.foldl (refStep net) st).log.writes = st.log.writes)
  | [], _ => rfl
  | u :: us, st => by
    rw [List.foldl_cons, foldl_refStep_writes net us, refStep_writes]

/-- The log of `replace_references` records no file write: writes happen only
at the `if modified` check afterwards. -/
theorem replace_references_writes (net : Net) (fs : FS) (pt : Pat) (c : List Char) :
    (replace_references net fs pt c).log.writes = [] := by
  simp only [replace_references, replace_urls_in_srcset, Log.app]
  rw [foldl_refStep_writes, foldl_srcsetStep_writes]
  rfl

/-- A file just inserted is found by the existence check. -/
theorem existsName_insert_self (fs : FS) (f : Folder) (n content : List Char) :
    (fs.insert f n content).existsName f n = true := by
  cases f <;> simp [FS.insert, FS.existsName, FS.entries]

/-- Inserting a file with a different name does not affect the existence
check. -/
theorem existsName_insert_of_ne (fs : FS) (f f' : Folder) (n n' content : List Char)
    (h : (n == n') = false) :
    (fs.insert f n content).existsName f' n' = fs.existsName f' n' := by
  cases f <;> cases f' <;> simp [FS.insert, FS.existsName, FS.entries, h]

theorem foldl_srcsetStep_inert (net : Net) :
    ∀ (toks : List (List Char)) (st : SPass),
      (∀ t ∈ toks, startsWithHttp t = false) →
      toks.foldl (srcsetStep net) st = st
  | [], _, _ => rfl
  | t :: ts, st, h => by
    rw [List.foldl_cons, srcsetStep_not_http net st t (h t (List.mem_cons_self t ts))]
    exact foldl_srcsetStep_inert net ts st fun x hx => h x (List.mem_cons_of_mem t hx)

theorem replace_urls_in_srcset_noop (net : Net) (fs : FS) (c : List Char)
    (h : srcsetInert c) : replace_urls_in_srcset net fs c = ⟨fs, c, Log.emp⟩ := by
  exact foldl_srcsetStep_inert net (srcTokensOf c) ⟨fs, c, Log.emp⟩ h

theorem replace_references_noop (net : Net) (fs : FS) (pt : Pat) (c : List Char)
    (h1 : srcsetInert c) (h2 : findAllP pt c = []) :
    replace_references net fs pt c = ⟨fs, c, false, Log.emp⟩ := by
  simp only [replace_references, replace_urls_in_srcset_noop net fs c h1, h2,
    dedupKeepFirst, List.foldl_nil]
  rfl

theorem replace_references_file_noop (net : Net) (fs : FS) (pt : Pat)
    (p c : List Char) (h1 : srcsetInert c) (h2 : findAllP pt c = []) :
    replace_references_file net fs pt p c = ⟨fs, c, Log.emp⟩ := by
  simp [replace_references_file, replace_references_noop net fs pt c h1 h2]

theorem foldl_processDoc_noop (net : Net) (p c : List Char) :
    ∀ (pts : List Pat) (fs : FS) (lg : Log),
      (∀ pt ∈ pts, srcsetInert c ∧ findAllP pt c = []) →
      pts.foldl
        (fun st pt =>
          let r := replace_references_file net st.fs pt p st.content
          (⟨r.fs, r.content, st.log.app r.log⟩ : SPass))
        ⟨fs, c, lg⟩ = ⟨fs, c, lg⟩
  | [], _, _, _ => rfl
  | pt :: pts, fs, lg, h => by
    rw [List.foldl_cons]
    have hr := replace_references_file_noop net fs pt p c
      (h pt (List.mem_cons_self pt pts)).1 (h pt (List.mem_cons_self pt pts)).2
    simp only [hr, Log.app_emp]
    exact foldl_processDoc_noop net p c pts fs lg fun x hx => h x (List.mem_cons_of_mem pt hx)

theorem processDoc_noop (net : Net) (fs : FS) (p c : List Char)
    (h : noDocRefs p c) : processDoc net fs p c = ⟨fs, c, Log.emp⟩ := by
  exact foldl_processDoc_noop net p c (patternsFor p) fs Log.emp h

theorem processDocs_noop (net : Net) :
    ∀ (docs : List (List Char × List Char)) (fs : FS),
      (∀ d ∈ docs, noDocRefs d.1 d.2) →
      processDocs net fs docs = (fs, docs, Log.emp)
  | [], _, _ => rfl
  | d :: ds, fs, h => by
    simp only [processDocs,
      processDoc_noop net fs d.1 d.2 (h d (List.mem_cons_self d ds)),
      processDocs_noop net ds fs fun x hx => h x (List.mem_cons_of_mem d hx)]
    rw [Log.emp_app]

/-- Overwriting the (unique) entry of this name with its current content is
the identity. -/
theorem updateEntry_self : ∀ (l : List (List Char × List Char)) (n c : List Char),
    (n, c) ∈ l → (l.map Prod.fst).Nodup → updateEntry l n c = l
  | [], _, _, h, _ => by simp at h
  | e :: es, n, c, h, hnd => by
    have hnd2 : (e.1 :: es.map Prod.fst).Nodup := by simpa using hnd
    obtain ⟨hne, hndtl⟩ := List.nodup_cons.mp hnd2
    simp only [updateEntry]
    rcases List.mem_cons.mp h with h1 | h1
    · rw [← h1]
      simp
    · by_cases he : e.1 = n
      · exfalso
        have hn : n ∈ es.map Prod.fst := by
          simpa using List.mem_map_of_mem Prod.fst h1
        rw [← he] at hn
        exact hne hn
      · rw [if_neg (by simp [he])]
        rw [updateEntry_self es n c h1 hndtl]

/-- Writing a file's current content back to its folder is the identity on a
well-formed filesystem. -/
theorem setFile_self (fs : FS) (f : Folder) (n c : List Char)
    (h : (n, c) ∈ fs.entries f) (hw : fs.wf) : fs.setFile f n c = fs := by
  cases f
  · simp only [FS.setFile]
    rw [updateEntry_self fs.assets n c h hw.1]
  · simp only [FS.setFile]
    rw [updateEntry_self fs.fonts n c h hw.2]

/-- Walking an asset directory whose files all satisfy `noDocRefs` (and are
stored, with unique names) changes nothing and logs nothing. -/
theorem processAssetFiles_noop (net : Net) (f : Folder) :
    ∀ (l : List (List Char × List Char)) (fs : FS),
      (∀ e ∈ l, noDocRefs (folderPath f e.1) e.2) →
      (∀ e ∈ l, (e.1, e.2) ∈ fs.entries f) →
      fs.wf →
      processAssetFiles net f fs l = (fs, Log.emp)
  | [], _, _, _, _ => rfl
  | e :: es, fs, h1, h2, hw => by
    simp only [processAssetFiles,
      processDoc_noop net fs (folderPath f e.1) e.2 (h1 e (List.mem_cons_self e es)),
      setFile_self fs f e.1 e.2 (h2 e (List.mem_cons_self e es)) hw,
      processAssetFiles_noop net f es fs (fun x hx => h1 x (List.mem_cons_of_mem e hx))
        (fun x hx => h2 x (List.mem_cons_of_mem e hx)) hw]
    rw [Log.emp_app]

/-- A well-formed state with no remaining external references (in documents
and in walked asset files alike) is a fixpoint of `process_files`, with an
empty event log. -/
theorem process_files_noop (net : Net) (s : St) (hw : s.fs.wf) (h : noExternalRefs s) :
    process_files net s = (s, Log.emp) := by
  obtain ⟨fs, docs⟩ := s
  obtain ⟨hdocs, hassets, hfonts⟩ := h
  simp only [process_files, processDocs_noop net docs fs hdocs,
    processAssetFiles_noop net Folder.assetsF (fs.entries Folder.assetsF) fs hassets
      (fun e he => he) hw,
    processAssetFiles_noop net Folder.fontsF (fs.entries Folder.fontsF) fs hfonts
      (fun e he => he) hw, Log.app_emp]

/-! ## Claims -/

/-- Claim C1 (amended): the second run of `process_files` performs no
downloads, writes nothing and changes nothing, provided the state left by the
first run — the source documents together with the downloaded asset files,
which the walk also visits and which carry folder-unique names as on a real
filesystem — has no remaining http(s) pattern match and no srcset candidate
starting with `http` in any file whose name dispatches to a pattern.  (As
originally stated the claim is false: when one matched URL occurs inside
another matched URL's occurrence, the first run can leave a rewritten
document that still matches, and the second run rewrites and writes it again
— see the counterexample.) -/
theorem claim1_amended (net : Net) (s0 : St)
    (hw : FS.wf (process_files net s0).1.fs)
    (h : noExternalRefs (process_files net s0).1) :
    process_files net ((process_files net s0).1) = ((process_files net s0).1, Log.emp) :=
  process_files_noop net _ hw h

theorem claim1_witness :
    FS.wf (process_files netOk wit1S0).1.fs ∧
      noExternalRefs (process_files netOk wit1S0).1 ∧
      process_files netOk ((process_files netOk wit1S0).1) =
        ((process_files netOk wit1S0).1, Log.emp) :=
  ⟨by decide, by decide, claim1_amended netOk wit1S0 (by decide) (by decide)⟩

/-- Claim C1 is false as stated: on `cex1S0` (one document in which one
matched URL occurs inside another), the first run resolves every reference
(`fails = 0`) and leaves the state `cex1S1`, yet the second run writes the
document again and produces a state different from `cex1S1`. -/
theorem claim1_counterexample :
    (process_files netOk cex1S0).1 = cex1S1 ∧
      (process_files netOk cex1S0).2.fails = 0 ∧
      (process_files netOk cex1S1).2.writes = [ "i.html".data ] ∧
      (process_files netOk cex1S1).1 ≠ cex1S1 := by
  refine ⟨by decide, by decide, by decide, by decide⟩

/-- Claim C2 (amended): an srcset-only change does NOT trigger a disk write.
When the type-specific loop sets no `modified` flag, `replace_references`
leaves the on-disk content exactly as read and records no write, even though
the srcset pass may have substituted URLs in the in-memory content (those
substitutions are discarded; only the downloads persist). -/
theorem claim2_amended (net : Net) (fs : FS) (pt : Pat) (path c : List Char)
    (h : (replace_references net fs pt c).modified = false) :
    (replace_references_file net fs pt path c).content = c ∧
      (replace_references_file net fs pt path c).log.writes = [] := by
  constructor
  · simp [replace_references_file, h]
  · simp [replace_references_file, h, replace_references_writes]

theorem claim2_witness :
    (replace_references netOk ⟨[], []⟩ html_img_pattern c2doc).modified = false ∧
      (replace_references_file netOk ⟨[], []⟩ html_img_pattern ( "s.html".data ) c2doc).content
        = c2doc ∧
      (replace_references_file netOk ⟨[], []⟩ html_img_pattern ( "s.html".data ) c2doc).log.writes
        = [] := by
  refine ⟨by decide, ?_, ?_⟩
  · exact (claim2_amended netOk ⟨[], []⟩ html_img_pattern ( "s.html".data ) c2doc (by decide)).1
  · exact (claim2_amended netOk ⟨[], []⟩ html_img_pattern ( "s.html".data ) c2doc (by decide)).2

/-- Claim C2 is false as stated: on `c2S0` (a document whose only reference
sits in a srcset attribute), the srcset pass substitutes the URL in memory
(the pass output differs from the document), yet `process_files` writes
nothing and the document on disk is unchanged. -/
theorem claim2_counterexample :
    (process_files netOk c2S0).2.writes = [] ∧
      (process_files netOk c2S0).1.docs = c2S0.docs ∧
      (replace_urls_in_srcset netOk ⟨[], []⟩ c2doc).content ≠ c2doc := by
  refine ⟨by decide, by decide, by decide⟩

/-- Claim C3 (amended): when the destination file does not already exist and
the request fails with a network-layer exception or a non-200 status,
`download_file` returns failure, creates no file, and nothing exists at the
destination afterwards.  (As originally stated the claim is false: a mid-body
exception after a 200 response leaves a partially written file — see the
counterexample.) -/
theorem claim3_amended (net : Net) (fs : FS) (url : List Char) (folder : Folder)
    (h1 : fs.existsName folder (fileNameOf url) = false)
    (h2 : net url = NetResp.exn ∨
      ∃ code ch mf, net url = NetResp.resp code ch mf ∧ code ≠ 200) :
    download_file net fs url folder = ⟨fs, none, ⟨[url], [], 1⟩⟩ ∧
      (download_file net fs url folder).fs.existsName folder (fileNameOf url) = false := by
  have hd := download_file_fresh_bad net fs url folder h1 h2
  exact ⟨hd, by rw [hd]; exact h1⟩

theorem claim3_witness :
    download_file net404 ⟨[], []⟩ c3url Folder.assetsF = ⟨⟨[], []⟩, none, ⟨[c3url], [], 1⟩⟩ ∧
      (download_file net404 ⟨[], []⟩ c3url Folder.assetsF).fs.existsName Folder.assetsF
        (fileNameOf c3url) = false :=
  claim3_amended net404 ⟨[], []⟩ c3url Folder.assetsF (by decide)
    (Or.inr ⟨404, [], false, rfl, by decide⟩)

/-- Claim C3 is false as stated: with a stream that returns 200 and then
fails mid-body after one chunk (`netPart`), `download_file` returns `None`
yet a partially written file exists at the destination path. -/
theorem claim3_counterexample :
    (download_file netPart ⟨[], []⟩ c3url Folder.assetsF).res = none ∧
      (download_file netPart ⟨[], []⟩ c3url Folder.assetsF).fs.existsName Folder.assetsF
        (fileNameOf c3url) = true ∧
      (download_file netPart ⟨[], []⟩ c3url Folder.assetsF).fs.assets =
        [( "f.png".data, "AB".data )] := by
  refine ⟨by decide, by decide, by decide⟩

/-- `str.replace("%20", "")` is the identity on percent-free strings. -/
theorem replace20_no_pct : ∀ (s : List Char), s.contains '%' = false → replace20 s = s
  | [], _ => rfl
  | [_], _ => rfl
  | [_, _], _ => rfl
  | c1 :: c2 :: c3 :: rest, h => by
    have h1 : c1 ≠ '%' := by
      intro he
      rw [he] at h
      simp [List.contains_cons] at h
    have h2 : (c2 :: c3 :: rest).contains '%' = false := by
      simp only [List.contains_cons, Bool.or_eq_false_iff] at h ⊢
      exact ⟨h.2.1, h.2.2⟩
    simp only [replace20]
    rw [if_neg fun hcon => h1 hcon.1]
    rw [replace20_no_pct (c2 :: c3 :: rest) h2]

/-- Claim C4 (amended): in `replace_references`, a reference whose response
status is not 200 gets no replacement of its own: `download_file` returns
`None`, no file is created for it, and the loop continues with the other
references (here the other reference is downloaded and substituted).  However
the failing URL's text is only guaranteed to stay verbatim when no other
matched URL occurs inside it; the counterexample shows a 404 URL whose text is
altered by a different, successful URL's global substitution. -/
theorem claim4_amended (net : Net) (ch chb : List (List Char)) (code : Nat) (mfb : Bool)
    (hg : net c4g = NetResp.resp 200 ch false)
    (hb : net c4bad = NetResp.resp code chb mfb) (hc : code ≠ 200) :
    replace_references net ⟨[], []⟩ html_pdf_pattern c4bdoc =
      ⟨⟨[( "g.pdf".data, ch.flatten )], []⟩, c4bfinal, true, ⟨[c4g, c4bad], [], 1⟩⟩ ∧
      occursIn c4bad c4bfinal = true ∧ occursIn c4g c4bfinal = false := by
  refine ⟨?_, by decide, by decide⟩
  have hd1 : download_file net ⟨[], []⟩ c4g (targetFolderFor c4g) =
      ⟨FS.insert ⟨[], []⟩ Folder.assetsF (fileNameOf c4g) ch.flatten,
        some (relOf Folder.assetsF (fileNameOf c4g)), ⟨[c4g], [], 0⟩⟩ := by
    rw [show targetFolderFor c4g = Folder.assetsF from by decide]
    exact download_file_fresh_ok net ⟨[], []⟩ c4g Folder.assetsF ch (by decide) hg
  have hex2 : (FS.insert ⟨[], []⟩ Folder.assetsF (fileNameOf c4g) ch.flatten).existsName
      Folder.assetsF (fileNameOf c4bad) = false := by
    rw [existsName_insert_of_ne _ _ _ _ _ _ (by decide)]
    decide
  have hd2 : download_file net (FS.insert ⟨[], []⟩ Folder.assetsF (fileNameOf c4g) ch.flatten)
      c4bad (targetFolderFor c4bad) =
      ⟨FS.insert ⟨[], []⟩ Folder.assetsF (fileNameOf c4g) ch.flatten, none,
        ⟨[c4bad], [], 1⟩⟩ := by
    rw [show targetFolderFor c4bad = Folder.assetsF from by decide]
    exact download_file_fresh_bad net _ c4bad Folder.assetsF hex2
      (Or.inr ⟨code, chb, mfb, hb, hc⟩)
  have hsrc := replace_urls_in_srcset_noop net ⟨[], []⟩ c4bdoc (by decide)
  have hfind : dedupKeepFirst (findAllP html_pdf_pattern c4bdoc) = [c4g, c4bad] := by decide
  simp only [replace_references, hsrc]
  rw [hfind]
  simp only [List.foldl_cons, List.foldl_nil]
  rw [refStep_eq_ok net ⟨⟨[], []⟩, c4bdoc, false, Log.emp⟩ c4g _ _ _ hd1]
  rw [show replaceAll c4g ('/' :: normSlash (relOf Folder.assetsF (fileNameOf c4g))) c4bdoc
      = c4bfinal from by decide]
  rw [refStep_eq_none net
    ⟨FS.insert ⟨[], []⟩ Folder.assetsF (fileNameOf c4g) ch.flatten, c4bfinal, true,
      Log.emp.app ⟨[c4g], [], 0⟩⟩ c4bad _ _ hd2]
  simp only [FS.insert, Log.app, Log.emp]
  rw [show fileNameOf c4g = ( "g.pdf".data ) from by decide]
  rfl

theorem claim4_witness :
    replace_references net4w ⟨[], []⟩ html_pdf_pattern c4bdoc =
      ⟨⟨[( "g.pdf".data, ( "D".data ) )], []⟩, c4bfinal, true, ⟨[c4g, c4bad], [], 1⟩⟩ ∧
      occursIn c4bad c4bfinal = true ∧ occursIn c4g c4bfinal = false :=
  claim4_amended net4w [ "D".data ] [] 404 false rfl rfl (by decide)

/-- Claim C4 is false as stated: on `c4doc` the URL `c4u1` gets a 404
(`fails = 1`, no file with its name is created), but its text does NOT remain
unmodified in the document — the successful download of `c4u2`, which occurs
inside `c4u1`, globally substituted part of it, so `c4u1` no longer occurs in
the result. -/
theorem claim4_counterexample :
    net4c c4u1 = NetResp.resp 404 [] false ∧
      (replace_references net4c ⟨[], []⟩ html_img_pattern c4doc).log.fails = 1 ∧
      (replace_references net4c ⟨[], []⟩ html_img_pattern c4doc).fs.existsName Folder.assetsF
        (fileNameOf c4u1) = false ∧
      occursIn c4u1 (replace_references net4c ⟨[], []⟩ html_img_pattern c4doc).content =
        false := by
  refine ⟨rfl, by decide, by decide, by decide⟩

/-- Claim C5 (amended): `download_file` removes every `%20` from the full URL,
takes the basename of the parsed path, removes `%20` once more, and strips
characters outside `[A-Za-z0-9._-]`.  Both examples of the claim hold, and for
any URL without a `%` character this coincides with the claim's description
("the basename of the URL's path with every literal `%20` removed and every
character outside the set stripped").  The two differ on adversarial URLs
where deleting a `%20` creates a new `%20` — see the counterexample. -/
theorem claim5_amended :
    fileNameOf ( "https://example.com/a%20b.PNG".data ) = ( "ab.PNG".data ) ∧
      fileNameOf ( "https://example.com/img@2x!.png".data ) = ( "img2x.png".data ) ∧
      ∀ url : List Char, url.contains '%' = false → fileNameOf url = specFileName url := by
  refine ⟨by decide, by decide, ?_⟩
  intro url h
  unfold fileNameOf specFileName
  rw [replace20_no_pct url h]

theorem claim5_witness :
    fileNameOf ( "https://example.com/a%20b.PNG".data ) = ( "ab.PNG".data ) ∧
      fileNameOf ( "http://cdn.test/pic.jpg".data ) = specFileName ( "http://cdn.test/pic.jpg".data ) :=
  ⟨claim5_amended.1, claim5_amended.2.2 ( "http://cdn.test/pic.jpg".data ) (by decide)⟩

/-- Claim C5 is false as stated, in two ways.  On `c5url`
(`http://x/a%%2020b.png`) the code computes `ab.png`, while the claim's
formula — basename of the URL's path with every literal `%20` removed, then
disallowed characters stripped — yields `a20b.png` (the deletion of the inner
`%20` creates a new `%20`, which the code deletes again but the claimed
single removal does not).  On `c5url2` (`http:/%20/x.png`) the code computes
the empty name, while the claim's formula yields `x.png`: here no new `%20`
is created at all — the pre-parse removal turns `http:/%20/` into `http://`,
so the code's parse reads `x.png` as a netloc with an empty path, while the
URL as written has path `/%20/x.png` with basename `x.png`. -/
theorem claim5_counterexample :
    fileNameOf c5url = ( "ab.png".data ) ∧ specFileName c5url = ( "a20b.png".data ) ∧
      fileNameOf c5url ≠ specFileName c5url ∧
      fileNameOf c5url2 = [] ∧ specFileName c5url2 = ( "x.png".data ) ∧
      fileNameOf c5url2 ≠ specFileName c5url2 := by
  refine ⟨by decide, by decide, by decide, by decide, by decide, by decide⟩

/-- Claim C6: if a file with the sanitized name already exists in the target
folder, `download_file` returns its project-root-relative path immediately
with no network fetch; and when two URLs share a sanitized filename, the
first (fresh, successful) download fetches the network exactly once and the
second call short-circuits with no fetch, returning the first file's path. -/
theorem claim6 :
    (∀ (net : Net) (fs : FS) (url : List Char) (folder : Folder),
      fs.existsName folder (fileNameOf url) = true →
      download_file net fs url folder = ⟨fs, some (relOf folder (fileNameOf url)), Log.emp⟩) ∧
    (∀ (net : Net) (fs : FS) (u1 u2 : List Char) (folder : Folder) (ch : List (List Char)),
      fileNameOf u2 = fileNameOf u1 →
      fs.existsName folder (fileNameOf u1) = false →
      net u1 = NetResp.resp 200 ch false →
      (download_file net fs u1 folder).log.fetches = [u1] ∧
      (download_file net (download_file net fs u1 folder).fs u2 folder).log.fetches = [] ∧
      (download_file net (download_file net fs u1 folder).fs u2 folder).res =
        some (relOf folder (fileNameOf u1))) := by
  constructor
  · intro net fs url folder h
    exact download_file_exists net fs url folder h
  · intro net fs u1 u2 folder ch heq h1 h2
    have hd1 := download_file_fresh_ok net fs u1 folder ch h1 h2
    have hex : ((download_file net fs u1 folder).fs).existsName folder (fileNameOf u2) = true := by
      rw [hd1, heq]
      exact existsName_insert_self fs folder (fileNameOf u1) ch.flatten
    have hd2 := download_file_exists net _ u2 folder hex
    refine ⟨?_, ?_, ?_⟩
    · rw [hd1]
    · rw [hd2]
      rfl
    · rw [hd2, heq]


theorem claim6_witness :
    download_file netOk c6fs c6u1 Folder.assetsF =
      ⟨c6fs, some ( "assets/one.png".data ), Log.emp⟩ ∧
      (download_file netOk ⟨[], []⟩ c6u1 Folder.assetsF).log.fetches = [c6u1] ∧
      (download_file netOk (download_file netOk ⟨[], []⟩ c6u1 Folder.assetsF).fs c6u2
        Folder.assetsF).log.fetches = [] ∧
      (download_file netOk (download_file netOk ⟨[], []⟩ c6u1 Folder.assetsF).fs c6u2
        Folder.assetsF).res = some ( "assets/one.png".data ) := by
  have h2 := claim6.2 netOk ⟨[], []⟩ c6u1 c6u2 Folder.assetsF [ "D".data ]
    (by decide) (by decide) rfl
  exact ⟨claim6.1 netOk c6fs c6u1 Folder.assetsF (by decide), h2.1, h2.2.1, h2.2.2⟩

/-- Claim C7: replacement text differs by source.  On a document with one
srcset reference and one plain `src` reference, the srcset URL is replaced by
the project-root-relative path without a leading slash (`assets/s.png`), while
the pattern-matched URL is replaced by the same form of path with `/`
prepended (`/assets/p.png`). -/
theorem claim7 (net : Net) (ch1 ch2 : List (List Char))
    (h1 : net c7s = NetResp.resp 200 ch1 false)
    (h2 : net c7p = NetResp.resp 200 ch2 false) :
    replace_references net ⟨[], []⟩ html_img_pattern c7doc =
      ⟨⟨[( "p.png".data, ch2.flatten ), ( "s.png".data, ch1.flatten )], []⟩, c7final, true,
        ⟨[c7s, c7p], [], 0⟩⟩ ∧
      occursIn ( "srcset=\"assets/s.png 1x\"".data ) c7final = true ∧
      occursIn ( "src=\"/assets/p.png\"".data ) c7final = true := by
  refine ⟨?_, by decide, by decide⟩
  have hd1 : download_file net ⟨[], []⟩ c7s (targetFolderFor c7s) =
      ⟨FS.insert ⟨[], []⟩ Folder.assetsF (fileNameOf c7s) ch1.flatten,
        some (relOf Folder.assetsF (fileNameOf c7s)), ⟨[c7s], [], 0⟩⟩ := by
    rw [show targetFolderFor c7s = Folder.assetsF from by decide]
    exact download_file_fresh_ok net ⟨[], []⟩ c7s Folder.assetsF ch1 (by decide) h1
  have hsrc : replace_urls_in_srcset net ⟨[], []⟩ c7doc =
      ⟨FS.insert ⟨[], []⟩ Folder.assetsF (fileNameOf c7s) ch1.flatten, c7mid,
        Log.emp.app ⟨[c7s], [], 0⟩⟩ := by
    simp only [replace_urls_in_srcset]
    rw [show srcTokensOf c7doc = [c7s] from by decide]
    simp only [List.foldl_cons, List.foldl_nil]
    rw [srcsetStep_eq_ok net ⟨⟨[], []⟩, c7doc, Log.emp⟩ c7s _ _ _ (by decide) hd1]
    rw [show replaceAll c7s (normSlash (relOf Folder.assetsF (fileNameOf c7s))) c7doc
        = c7mid from by decide]
  have hex2 : (FS.insert ⟨[], []⟩ Folder.assetsF (fileNameOf c7s) ch1.flatten).existsName
      Folder.assetsF (fileNameOf c7p) = false := by
    rw [existsName_insert_of_ne _ _ _ _ _ _ (by decide)]
    decide
  have hd2 : download_file net (FS.insert ⟨[], []⟩ Folder.assetsF (fileNameOf c7s) ch1.flatten)
      c7p (targetFolderFor c7p) =
      ⟨FS.insert (FS.insert ⟨[], []⟩ Folder.assetsF (fileNameOf c7s) ch1.flatten)
          Folder.assetsF (fileNameOf c7p) ch2.flatten,
        some (relOf Folder.assetsF (fileNameOf c7p)), ⟨[c7p], [], 0⟩⟩ := by
    rw [show targetFolderFor c7p = Folder.assetsF from by decide]
    exact download_file_fresh_ok net _ c7p Folder.assetsF ch2 hex2 h2
  simp only [replace_references, hsrc]
  rw [show dedupKeepFirst (findAllP html_img_pattern c7mid) = [c7p] from by decide]
  simp only [List.foldl_cons, List.foldl_nil]
  rw [refStep_eq_ok net
    ⟨FS.insert ⟨[], []⟩ Folder.assetsF (fileNameOf c7s) ch1.flatten, c7mid, false, Log.emp⟩
    c7p _ _ _ hd2]
  rw [show replaceAll c7p ('/' :: normSlash (relOf Folder.assetsF (fileNameOf c7p))) c7mid
      = c7final from by decide]
  simp only [FS.insert, Log.app, Log.emp]
  rw [show fileNameOf c7s = ( "s.png".data ) from by decide,
    show fileNameOf c7p = ( "p.png".data ) from by decide]
  rfl

theorem claim7_witness :
    replace_references net7w ⟨[], []⟩ html_img_pattern c7doc =
      ⟨⟨[( "p.png".data, ( "P".data ) ), ( "s.png".data, ( "S".data ) )], []⟩, c7final, true,
        ⟨[c7s, c7p], [], 0⟩⟩ ∧
      occursIn ( "srcset=\"assets/s.png 1x\"".data ) c7final = true ∧
      occursIn ( "src=\"/assets/p.png\"".data ) c7final = true :=
  claim7 net7w [ "S".data ] [ "P".data ] rfl rfl

/-- Claim C10: when a URL's path basename sanitizes to the empty string, the
joined local path is the target folder itself, which exists, so
`download_file` returns the folder's project-root-relative path with no
network access; and in `replace_references` such a URL is rewritten to a path
naming a directory (`/assets`), as the concrete document shows. -/
theorem claim10 :
    (∀ (net : Net) (fs : FS) (url : List Char) (folder : Folder),
      fileNameOf url = [] →
      download_file net fs url folder = ⟨fs, some (folderRel folder), Log.emp⟩) ∧
    (∀ net : Net,
      replace_references net ⟨[], []⟩ html_img_pattern c10doc =
        ⟨⟨[], []⟩, c10final, true, Log.emp⟩) := by
  constructor
  · intro net fs url folder h
    simp [download_file, h, FS.existsName, relOf]
  · intro net
    rfl

theorem claim10_witness :
    download_file netOk ⟨[], []⟩ ( "http://a/".data ) Folder.fontsF =
      ⟨⟨[], []⟩, some ( "assets/fonts".data ), Log.emp⟩ ∧
      fileNameOf ( "http://a/".data ) = [] ∧
      fileNameOf c10url = [] := by
  refine ⟨claim10.1 netOk ⟨[], []⟩ ( "http://a/".data ) Folder.fontsF (by decide),
    by decide, by decide⟩

/-! ## Structure of matched URLs (for claim C8) -/

theorem ciStrip_some : ∀ (lit s r : List Char), ciStrip lit s = some r →
    ∃ t, s = t ++ r ∧ t.length = lit.length ∧ mapLower t = mapLower lit
  | [], s, r, h => by
    refine ⟨[], ?_, rfl, rfl⟩
    simpa [ciStrip] using Option.some.inj h
  | _ :: _, [], _, h => by simp [ciStrip] at h
  | l :: ls, c :: cs, r, h => by
    simp only [ciStrip] at h
    split at h
    case isTrue hcl =>
      obtain ⟨t, ht1, ht2, ht3⟩ := ciStrip_some ls cs r h
      refine ⟨c :: t, by simp [ht1], by simp [ht2], ?_⟩
      simp only [mapLower, List.map_cons] at ht3 ⊢
      rw [ht3, beq_iff_eq.mp hcl]
    case isFalse => simp at h

theorem firstExtM_some : ∀ (exts : List (List Char)) (cssT : Bool) (s : List Char)
    (eL ex : Nat), firstExtM exts cssT s = some (eL, ex) →
    ∃ e ∈ exts, eL = e.length ∧
      ∃ t rest, s = t ++ rest ∧ t.length = e.length ∧ mapLower t = mapLower e
  | [], _, _, _, _, h => by simp [firstExtM] at h
  | e :: es, cssT, s, eL, ex, h => by
    simp only [firstExtM] at h
    split at h
    · obtain ⟨e', he', hrest⟩ := firstExtM_some es cssT s eL ex h
      exact ⟨e', List.mem_cons_of_mem e he', hrest⟩
    next rest hcs =>
      split at h
      · next ex' hok =>
        have hinj := Option.some.inj h
        obtain ⟨h1, h2⟩ : e.length = eL ∧ ex' = ex := by simpa using hinj
        obtain ⟨t, ht1, ht2, ht3⟩ := ciStrip_some e s rest hcs
        exact ⟨e, List.mem_cons_self e es, h1.symm, t, rest, ht1, ht2, ht3⟩
      · obtain ⟨e', he', hrest⟩ := firstExtM_some es cssT s eL ex h
        exact ⟨e', List.mem_cons_of_mem e he', hrest⟩

theorem splitOkAt_some (excl : List Char) (exts : List (List Char)) (cssT : Bool)
    (s : List Char) (b eL ex : Nat) (h : splitOkAt excl exts cssT s b = some (eL, ex)) :
    (s.take b).all (fun c => !(excl.contains c)) = true ∧ s[b]? = some '.' ∧
      firstExtM exts cssT (s.drop (b + 1)) = some (eL, ex) := by
  simp only [splitOkAt] at h
  split at h
  case isTrue hall =>
    split at h
    · next c hg =>
      split at h
      case isTrue hc =>
        exact ⟨hall, by rw [hg, hc], h⟩
      case isFalse => simp at h
    · simp at h
  case isFalse => simp at h

theorem bestSplitGo_some (excl : List Char) (exts : List (List Char)) (cssT : Bool)
    (s : List Char) :
    ∀ (n b eL ex : Nat), bestSplitGo excl exts cssT s n = some (b, eL, ex) →
    1 ≤ b ∧ (s.take b).all (fun c => !(excl.contains c)) = true ∧ s[b]? = some '.' ∧
      firstExtM exts cssT (s.drop (b + 1)) = some (eL, ex)
  | 0, _, _, _, h => by simp [bestSplitGo] at h
  | n + 1, b, eL, ex, h => by
    simp only [bestSplitGo] at h
    split at h
    · next eL' ex' hs =>
      have hinj := Option.some.inj h
      obtain ⟨h1, h2, h3⟩ : n + 1 = b ∧ eL' = eL ∧ ex' = ex := by simpa using hinj
      subst h1 h2 h3
      obtain ⟨ha, hb', hc⟩ := splitOkAt_some excl exts cssT s (n + 1) _ _ hs
      exact ⟨Nat.succ_le_succ (Nat.zero_le n), ha, hb', hc⟩
    · exact bestSplitGo_some excl exts cssT s n b eL ex h

theorem schemeSplit_some (r1 : List Char) (pre : Nat) (r2 : List Char)
    (h : schemeSplit r1 = some (pre, r2)) :
    ∃ t, r1 = t ++ r2 ∧
      (mapLower t = ( "s://".data ) ∧ pre = 8 ∨ mapLower t = ( "://".data ) ∧ pre = 7) := by
  simp only [schemeSplit] at h
  split at h
  · next r hs =>
    have hinj := Option.some.inj h
    obtain ⟨h1, h2⟩ : 8 = pre ∧ r = r2 := by simpa using hinj
    subst h1 h2
    obtain ⟨t, ht1, _, ht3⟩ := ciStrip_some _ r1 r hs
    refine ⟨t, ht1, Or.inl ⟨?_, rfl⟩⟩
    rw [ht3]
    decide
  · split at h
    · next r hs2 =>
      have hinj := Option.some.inj h
      obtain ⟨h1, h2⟩ : 7 = pre ∧ r = r2 := by simpa using hinj
      subst h1 h2
      obtain ⟨t, ht1, _, ht3⟩ := ciStrip_some _ r1 r hs2
      refine ⟨t, ht1, Or.inr ⟨?_, rfl⟩⟩
      rw [ht3]
      decide
    · simp at h

/-- Structure of a `tryBareCore` match (the group of any of the four URL
patterns): a case-insensitive `http://` or `https://` prefix, a non-empty body
avoiding the excluded characters, a literal dot, and a case-insensitive copy
of one of the extension alternatives. -/
theorem tryBareCore_decomp (excl : List Char) (exts : List (List Char)) (cssT : Bool)
    (s g : List Char) (k : Nat) (h : tryBareCore excl exts cssT s = some (g, k)) :
    ∃ pre body extC,
      g = pre ++ body ++ '.' :: extC ∧
      (mapLower pre = ( "http://".data ) ∨ mapLower pre = ( "https://".data )) ∧
      body ≠ [] ∧ body.all (fun c => !(excl.contains c)) = true ∧
      ∃ e ∈ exts, mapLower extC = mapLower e := by
  simp only [tryBareCore] at h
  split at h
  · simp at h
  next r1 h0 =>
    split at h
    · simp at h
    next pre r2 h1 =>
      split at h
      · simp at h
      next b eL ex h2 =>
        have hinj := Option.some.inj h
        obtain ⟨hg, hk⟩ : List.take (pre + b + 1 + eL) s = g ∧ pre + b + 1 + eL + ex = k := by
          simpa using hinj
        obtain ⟨t0, hs0, hl0, hm0⟩ := ciStrip_some _ s r1 h0
        obtain ⟨t1, hs1, hcase⟩ := schemeSplit_some r1 pre r2 h1
        obtain ⟨hb1, hball, hdot, hfe⟩ :=
          bestSplitGo_some excl exts cssT r2 r2.length b eL ex h2
        obtain ⟨e, he, heL, t, rest, hsplit, htl, hml⟩ :=
          firstExtM_some exts cssT (r2.drop (b + 1)) eL ex hfe
        obtain ⟨hblt, hbe⟩ := List.getElem?_eq_some.mp hdot
        have hl0' : t0.length = 4 := by
          have h' := congrArg List.length hm0
          simp only [mapLower, List.length_map] at h'
          exact h'.trans (by decide)
        have hl1 : t1.length + 4 = pre := by
          rcases hcase with ⟨hml1, hp⟩ | ⟨hml1, hp⟩
          · have h4 : t1.length = 4 := by
              have h' := congrArg List.length hml1
              simp only [mapLower, List.length_map] at h'
              exact h'.trans (by decide)
            omega
          · have h3 : t1.length = 3 := by
              have h' := congrArg List.length hml1
              simp only [mapLower, List.length_map] at h'
              exact h'.trans (by decide)
            omega
        refine ⟨t0 ++ t1, r2.take b, t, ?_, ?_, ?_, hball, e, he, hml⟩
        · have hr2 : r2.take (b + 1 + eL) = r2.take b ++ '.' :: t := by
            rw [show b + 1 + eL = b + (1 + eL) from by omega, List.take_add]
            rw [List.drop_eq_getElem_cons hblt, hbe]
            rw [show 1 + eL = eL + 1 from by omega, List.take_succ_cons]
            congr 1
            rw [hsplit, heL, ← htl, List.take_left]
          have harr : pre + b + 1 + eL = (t0 ++ t1).length + (b + 1 + eL) := by
            simp only [List.length_append]
            omega
          rw [← hg, hs0, hs1,
            show t0 ++ (t1 ++ r2) = (t0 ++ t1) ++ r2 from (List.append_assoc t0 t1 r2).symm,
            harr, List.take_append, hr2]
          simp
        · rcases hcase with ⟨hml1, _⟩ | ⟨hml1, _⟩
          · refine Or.inr ?_
            simp only [mapLower, List.map_append] at hm0 hml1 ⊢
            rw [hm0, hml1]
            decide
          · refine Or.inl ?_
            simp only [mapLower, List.map_append] at hm0 hml1 ⊢
            rw [hm0, hml1]
            decide
        · have hlen : (r2.take b).length = b := by
            rw [List.length_take]
            omega
          intro hnil
          rw [hnil] at hlen
          simp only [List.length_nil] at hlen
          omega

/-- Every group produced by `tryCssAt` is a `tryBareCore` group. -/
theorem tryCssAt_decomp (excl : List Char) (exts : List (List Char)) (s g : List Char)
    (k : Nat) (h : tryCssAt excl exts s = some (g, k)) :
    ∃ s2 k2, tryBareCore excl exts true s2 = some (g, k2) := by
  simp only [tryCssAt] at h
  split at h
  · simp at h
  next r0 h0 =>
    split at h
    · simp at h
    next c rs =>
      split at h
      · split at h
        · next g' k' hb =>
          have hinj := Option.some.inj h
          obtain ⟨hg, hk⟩ : g' = g ∧ 4 + 1 + k' = k := by simpa using hinj
          exact ⟨rs, k', hg ▸ hb⟩
        · simp at h
      · split at h
        · next g' k' hb =>
          have hinj := Option.some.inj h
          obtain ⟨hg, hk⟩ : g' = g ∧ 4 + k' = k := by simpa using hinj
          exact ⟨c :: rs, k', hg ▸ hb⟩
        · simp at h

theorem findAllAux_mem (P : List Char → Prop) (try1 : List Char → Option (List Char × Nat))
    (htry : ∀ s g k, try1 s = some (g, k) → P g) :
    ∀ (fuel : Nat) (s m : List Char), m ∈ findAllAux try1 fuel s → P m
  | 0, _, _, h => by simp [findAllAux] at h
  | _ + 1, [], _, h => by simp [findAllAux] at h
  | fuel + 1, c :: cs, m, h => by
    simp only [findAllAux] at h
    split at h
    · next g k h1 =>
      rcases List.mem_cons.mp h with h2 | h2
      · exact h2 ▸ htry _ g k h1
      · exact findAllAux_mem P try1 htry fuel _ m h2
    · exact findAllAux_mem P try1 htry fuel cs m h

/-- Every match of `findAllP` has the URL-pattern structure. -/
theorem findAllP_decomp (pt : Pat) (content m : List Char) (h : m ∈ findAllP pt content) :
    ∃ pre body extC,
      m = pre ++ body ++ '.' :: extC ∧
      (mapLower pre = ( "http://".data ) ∨ mapLower pre = ( "https://".data )) ∧
      body ≠ [] ∧ body.all (fun c => !(pt.excl.contains c)) = true ∧
      ∃ e ∈ pt.exts, mapLower extC = mapLower e := by
  refine findAllAux_mem
    (fun m => ∃ pre body extC,
      m = pre ++ body ++ '.' :: extC ∧
      (mapLower pre = ( "http://".data ) ∨ mapLower pre = ( "https://".data )) ∧
      body ≠ [] ∧ body.all (fun c => !(pt.excl.contains c)) = true ∧
      ∃ e ∈ pt.exts, mapLower extC = mapLower e)
    (patTry pt) ?_ (content.length + 1) content m h
  intro s g k hs
  by_cases hcss : pt.css
  · have hpt : patTry pt = tryCssAt pt.excl pt.exts := by
      simp [patTry, hcss]
    rw [hpt] at hs
    obtain ⟨s2, k2, hb⟩ := tryCssAt_decomp pt.excl pt.exts s g k hs
    exact tryBareCore_decomp pt.excl pt.exts true s2 g k2 hb
  · have hpt : patTry pt = tryBareCore pt.excl pt.exts false := by
      simp [patTry, hcss]
    rw [hpt] at hs
    exact tryBareCore_decomp pt.excl pt.exts false s g k hs

theorem startsHttpCI_of (m pre rest : List Char) (hm : m = pre ++ rest)
    (hpre : mapLower pre = ( "http://".data ) ∨ mapLower pre = ( "https://".data )) :
    StartsHttpCI m := by
  rcases hpre with hp | hp
  · refine Or.inl ?_
    have hl : pre.length = 7 := by
      have h' := congrArg List.length hp
      simp only [mapLower, List.length_map] at h'
      exact h'.trans (by decide)
    rw [hm, ← hl, List.take_left, hp]
  · refine Or.inr ?_
    have hl : pre.length = 8 := by
      have h' := congrArg List.length hp
      simp only [mapLower, List.length_map] at h'
      exact h'.trans (by decide)
    rw [hm, ← hl, List.take_left, hp]

theorem endsInExtCI_of (exts : List (List Char)) (m pre body extC e : List Char)
    (hm : m = pre ++ body ++ '.' :: extC) (he : e ∈ exts)
    (hml : mapLower extC = mapLower e) : EndsInExtCI exts m := by
  refine ⟨e, he, mapLower pre ++ mapLower body, ?_⟩
  rw [hm]
  simp only [mapLower, List.map_append, List.map_cons, List.append_assoc]
  simp only [mapLower] at hml
  rw [show lc '.' = '.' from rfl, hml]

theorem notMem_of (excl : List Char) (exts' : List (List Char))
    (m pre body extC e : List Char) (c0 : Char)
    (hm : m = pre ++ body ++ '.' :: extC)
    (hpre : mapLower pre = ( "http://".data ) ∨ mapLower pre = ( "https://".data ))
    (hball : body.all (fun c => !(excl.contains c)) = true)
    (hml : mapLower extC = mapLower e) (he : e ∈ exts')
    (hlc : lc c0 = c0) (hh1 : c0 ∉ ( "http://".data )) (hh2 : c0 ∉ ( "https://".data ))
    (hdot : c0 ≠ '.') (hexcl : excl.contains c0 = true)
    (hexts : ∀ e' ∈ exts', c0 ∉ mapLower e') :
    c0 ∉ m := by
  intro hin
  rw [hm] at hin
  rcases List.mem_append.mp hin with hin1 | hin2
  · rcases List.mem_append.mp hin1 with hinp | hinb
    · have hmem : lc c0 ∈ mapLower pre := List.mem_map_of_mem lc hinp
      rw [hlc] at hmem
      rcases hpre with hp | hp
      · rw [hp] at hmem
        exact hh1 hmem
      · rw [hp] at hmem
        exact hh2 hmem
    · have hq := List.all_eq_true.mp hball c0 hinb
      rw [hexcl] at hq
      simp at hq
  · rcases List.mem_cons.mp hin2 with hd | hinE
    · exact hdot hd
    · have hmem : lc c0 ∈ mapLower extC := List.mem_map_of_mem lc hinE
      rw [hlc, hml] at hmem
      exact hexts e he hmem

/-- Claim C8 (amended): every URL string matched by the three HTML patterns
begins case-insensitively with `http://` or `https://`, ends case-insensitively
in a dot plus one of that pattern's extensions, and contains no `"`, `'` or
`>`.  Every URL matched by the combined CSS pattern likewise starts with
http(s) and ends in an extension and contains no `"` or `'`, but its excluded
set is `"`, `'`, `)` (the `url(...)` terminator), not `>`: a CSS match
contains no `)` yet MAY contain `>` (see the counterexample). -/
theorem claim8_amended :
    (∀ content m, m ∈ findAllP html_img_pattern content →
      StartsHttpCI m ∧ EndsInExtCI html_img_pattern.exts m ∧
        '"' ∉ m ∧ sq ∉ m ∧ '>' ∉ m) ∧
    (∀ content m, m ∈ findAllP html_pdf_pattern content →
      StartsHttpCI m ∧ EndsInExtCI html_pdf_pattern.exts m ∧
        '"' ∉ m ∧ sq ∉ m ∧ '>' ∉ m) ∧
    (∀ content m, m ∈ findAllP html_video_pattern content →
      StartsHttpCI m ∧ EndsInExtCI html_video_pattern.exts m ∧
        '"' ∉ m ∧ sq ∉ m ∧ '>' ∉ m) ∧
    (∀ content m, m ∈ findAllP css_asset_pattern content →
      StartsHttpCI m ∧ EndsInExtCI css_asset_pattern.exts m ∧
        '"' ∉ m ∧ sq ∉ m ∧ ')' ∉ m) := by
  refine ⟨?_, ?_, ?_, ?_⟩ <;>
  · intro content m h
    obtain ⟨pre, body, extC, hm, hpre, _, hball, e, he, hml⟩ :=
      findAllP_decomp _ content m h
    refine ⟨startsHttpCI_of m pre (body ++ '.' :: extC) (by rw [hm]; simp) hpre,
      endsInExtCI_of _ m pre body extC e hm he hml, ?_, ?_, ?_⟩ <;>
    exact notMem_of _ _ m pre body extC e _ hm hpre hball hml he (by decide) (by decide)
      (by decide) (by decide) (by decide) (by decide)

theorem claim8_witness :
    c8wurl ∈ findAllP html_img_pattern c8wdoc ∧ StartsHttpCI c8wurl ∧
      EndsInExtCI html_img_pattern.exts c8wurl ∧ '"' ∉ c8wurl ∧ sq ∉ c8wurl ∧
      '>' ∉ c8wurl := by
  have hmem : c8wurl ∈ findAllP html_img_pattern c8wdoc := by decide
  have hp := claim8_amended.1 c8wdoc c8wurl hmem
  exact ⟨hmem, hp.1, hp.2.1, hp.2.2.1, hp.2.2.2.1, hp.2.2.2.2⟩

/-- Claim C8 is false as stated: the CSS pattern's match in
`url(http://a/x>y.png)` is the URL `http://a/x>y.png`, which contains `>`. -/
theorem claim8_counterexample :
    findAllP css_asset_pattern c8doc = [c8url] ∧ '>' ∈ c8url := by
  refine ⟨by decide, by decide⟩

end Dl
